import Mathlib

/-
  Verification development for the nested-property library
  (path-addressed access to nested mappings/sequences plus a
  Mongo-style predicate engine).

  The Python module is shallowly embedded below.  Values are modelled by
  the inductive type `PyVal` covering the shapes the library manipulates:
  None, integers, strings, lists and (string-keyed, insertion-ordered)
  dicts.  Attribute-bearing record objects, floats and booleans are not
  modelled: no claim exercises them.  Python dicts are association lists
  without duplicate keys; the well-formedness predicate `wfV` states the
  no-duplicate-keys invariant where a proof needs it.

  Functions that can raise return `Except String a`; the string names the
  Python exception.  Mutating functions are modelled functionally: they
  return the updated root.  When a Python function raises after partially
  mutating the root, the model returns only the error (no claim inspects
  a root after an escaped exception).
-/

namespace NP

/-- A Python value as manipulated by the library: None, int, str, list, dict. -/
inductive PyVal where
  | none
  | int (n : Int)
  | str (s : String)
  | list (xs : List PyVal)
  | dict (kvs : List (String × PyVal))

/-- Models the Python test x is None. -/
def isNone : PyVal → Bool
  | PyVal.none => true
  | _ => false

/-- One parsed path segment: a sequence index or a field name (section 4.2 of the spec). -/
inductive Seg where
  | idx (n : Nat)
  | fld (s : String)
deriving DecidableEq, Repr

/-- Accumulates the numeric value of a digit string, models Python int() on digit strings. -/
def digitsToNat : List Char → Nat → Nat
  | [], acc => acc
  | c :: cs, acc => digitsToNat cs (acc * 10 + (c.toNat - 48))

/-- Models _parse_key with index_prefix at its default None (no claim uses a
prefix): a segment made entirely of digits (and nonempty, as str.isdigit
requires) is an Index, anything else a Field. -/
def parseKey (key : String) : Seg :=
  if !key.toList.isEmpty && key.toList.all Char.isDigit then
    Seg.idx (digitsToNat key.toList 0)
  else
    Seg.fld key

/-- Splits off the chunks of a character list at dots; models str.split with separator dot. -/
def splitDotAux : List Char → List Char → List String
  | [], acc => [String.mk acc.reverse]
  | c :: cs, acc =>
    if c = '.' then String.mk acc.reverse :: splitDotAux cs [] else splitDotAux cs (c :: acc)

/-- Models Python path.split on the dot separator (an empty string yields one empty segment). -/
def splitDot (s : String) : List String :=
  splitDotAux s.toList []

/-- Models is_list_object (tuples are not modelled; no claim uses one). -/
def is_list_object : PyVal → Bool
  | PyVal.list _ => true
  | _ => false

/-- Models is_dict_object: a dict, or an object with an attribute dict.
None, int, str and list instances have no attribute dict, so only a
mapping qualifies among the modelled values. -/
def is_dict_object : PyVal → Bool
  | PyVal.dict _ => true
  | _ => false

/-- Models get_value(obj, key, None) for a string key: dict lookup with
default None; a non-dict has no such attribute among the modelled values,
so the default None is returned. -/
def get_value (obj : PyVal) (key : String) : PyVal :=
  match obj with
  | PyVal.dict kvs => (kvs.lookup key).getD PyVal.none
  | _ => PyVal.none

/-- Models get_value(obj, k, None) for an integer key k, as called from the
index branches of the traversals: a dict answers dict.get(k, None) = None
(its keys are strings); on any other value Python reaches hasattr(obj, k),
which raises TypeError because the attribute name is not a string.  In
particular reading a list element through get_value always raises. -/
def get_value_int (obj : PyVal) : Except String PyVal :=
  match obj with
  | PyVal.dict _ => Except.ok PyVal.none
  | _ => Except.error "TypeError: attribute name must be string"

/-- Models has_key: key containment for a dict; the modelled non-dict
values have no named attributes, so hasattr is false. -/
def has_key (obj : PyVal) (key : String) : Bool :=
  match obj with
  | PyVal.dict kvs => kvs.any (fun p => p.1 == key)
  | _ => false

/-- Models Python dict assignment d[k] = v: an existing key keeps its
position, a new key is appended at the end (insertion order). -/
def dictSet : List (String × PyVal) → String → PyVal → List (String × PyVal)
  | [], k, v => [(k, v)]
  | (k2, w) :: rest, k, v =>
    if k2 == k then (k, v) :: rest else (k2, w) :: dictSet rest k v

mutual

/-- Models Python structural equality (the == used by the library) on the
modelled values: None equals only None; ints and strings by value; lists
elementwise; dicts as unordered key-to-value maps (same size and every
entry of one found in the other). -/
def pyEq : PyVal → PyVal → Bool
  | PyVal.none, PyVal.none => true
  | PyVal.int a, PyVal.int b => a == b
  | PyVal.str a, PyVal.str b => a == b
  | PyVal.list xs, PyVal.list ys => pyEqList xs ys
  | PyVal.dict xs, PyVal.dict ys => xs.length == ys.length && pyEqEntries xs ys
  | _, _ => false

/-- Elementwise equality of two lists under pyEq. -/
def pyEqList : List PyVal → List PyVal → Bool
  | [], [] => true
  | x :: xs, y :: ys => pyEq x y && pyEqList xs ys
  | _, _ => false

/-- Every entry of the first association list appears in the second with a pyEq value. -/
def pyEqEntries : List (String × PyVal) → List (String × PyVal) → Bool
  | [], _ => true
  | (k, v) :: rest, ys => pyEqFind k v ys && pyEqEntries rest ys

/-- Whether the association list has an entry with the given key and a pyEq value. -/
def pyEqFind (k : String) (v : PyVal) : List (String × PyVal) → Bool
  | [] => false
  | (k2, w) :: rest => if k2 == k then pyEq v w else pyEqFind k v rest

end

mutual

/-- Models Python a < b on the modelled values: ints and strings compare by
value, lists lexicographically (equality of elements decided by pyEq, the
first unequal pair decided by pyLt); every other combination, in
particular anything involving None, raises TypeError. -/
def pyLt : PyVal → PyVal → Except String Bool
  | PyVal.int a, PyVal.int b => Except.ok (decide (a < b))
  | PyVal.str a, PyVal.str b => Except.ok (decide (a < b))
  | PyVal.list xs, PyVal.list ys => pyLtList xs ys
  | _, _ => Except.error "TypeError: unorderable types"

/-- Lexicographic strict order on lists as Python implements it. -/
def pyLtList : List PyVal → List PyVal → Except String Bool
  | [], [] => Except.ok false
  | [], _ :: _ => Except.ok true
  | _ :: _, [] => Except.ok false
  | x :: xs, y :: ys => if pyEq x y then pyLtList xs ys else pyLt x y

/-- Models Python a <= b, same shapes as pyLt, ties broken by length. -/
def pyLe : PyVal → PyVal → Except String Bool
  | PyVal.int a, PyVal.int b => Except.ok (decide (a ≤ b))
  | PyVal.str a, PyVal.str b => Except.ok (decide (a ≤ b))
  | PyVal.list xs, PyVal.list ys => pyLeList xs ys
  | _, _ => Except.error "TypeError: unorderable types"

/-- Lexicographic non-strict order on lists as Python implements it. -/
def pyLeList : List PyVal → List PyVal → Except String Bool
  | [], [] => Except.ok true
  | [], _ :: _ => Except.ok true
  | _ :: _, [] => Except.ok false
  | x :: xs, y :: ys => if pyEq x y then pyLeList xs ys else pyLt x y

end

/-- Models Python a > b, which for the modelled types is b < a. -/
def pyGt (a b : PyVal) : Except String Bool := pyLt b a

/-- Models Python a >= b, which for the modelled types is b <= a. -/
def pyGe (a b : PyVal) : Except String Bool := pyLe b a

/-- Models Python len: defined for strings, lists and dicts; TypeError otherwise. -/
def pyLen : PyVal → Except String Nat
  | PyVal.str s => Except.ok s.length
  | PyVal.list xs => Except.ok xs.length
  | PyVal.dict kvs => Except.ok kvs.length
  | _ => Except.error "TypeError: object has no len"

/-- The first list is a prefix of the second. -/
def listPrefix : List Char → List Char → Bool
  | [], _ => true
  | _ :: _, [] => false
  | a :: as, b :: bs => a == b && listPrefix as bs

/-- The first list occurs contiguously inside the second. -/
def listInfix (sub : List Char) : List Char → Bool
  | [] => sub.isEmpty
  | c :: cs => listPrefix sub (c :: cs) || listInfix sub cs

/-- Substring containment, sub inside s (Python sub in s for strings). -/
def sContains (s sub : String) : Bool :=
  listInfix sub.toList s.toList

/-- Models Python membership a in b: for a list, pyEq against some element;
for a string, substring test requiring a string left operand; for a dict,
containment among its (string) keys, where an unhashable left operand
raises; anything else is not iterable and raises TypeError. -/
def pyIn (a : PyVal) : PyVal → Except String Bool
  | PyVal.list ys => Except.ok (ys.any (fun y => pyEq a y))
  | PyVal.str s =>
    match a with
    | PyVal.str sub => Except.ok (sContains s sub)
    | _ => Except.error "TypeError: in string requires string as left operand"
  | PyVal.dict kvs =>
    match a with
    | PyVal.str k => Except.ok (kvs.any (fun p => p.1 == k))
    | PyVal.int _ => Except.ok false
    | PyVal.none => Except.ok false
    | _ => Except.error "TypeError: unhashable type"
  | _ => Except.error "TypeError: argument is not iterable"

/-- The keys of an association list are pairwise distinct (Python dicts cannot repeat keys). -/
def nodupKeys : List (String × PyVal) → Bool
  | [] => true
  | (k, _) :: rest => !rest.any (fun p => p.1 == k) && nodupKeys rest

mutual

/-- A modelled value is well formed when every dict inside it has no
duplicate keys; every value reachable from Python satisfies this. -/
def wfV : PyVal → Bool
  | PyVal.dict kvs => nodupKeys kvs && wfEntries kvs
  | PyVal.list xs => wfList xs
  | _ => true

/-- All elements well formed. -/
def wfList : List PyVal → Bool
  | [] => true
  | x :: xs => wfV x && wfList xs

/-- All entry values well formed. -/
def wfEntries : List (String × PyVal) → Bool
  | [] => true
  | (_, v) :: rest => wfV v && wfEntries rest

end

/-- Models _traverse with create_missing at false (the mode used by get,
has-adjacent callers, delete and pull; the creating mode is modelled at
its call sites, push and set).  Per iteration: an Index segment on a
non-sequence returns None; on a sequence the read goes through get_value,
whose hasattr call with an integer name raises TypeError, which the
except clause turns into None — so a non-creating traversal never gets
past an Index segment.  A Field segment requires a mapping and descends
through get_value; a None current value returns None immediately. -/
def traverseKeys (obj : PyVal) : List String → PyVal
  | [] => obj
  | key :: ks =>
    match parseKey key with
    | Seg.idx _ =>
      match obj with
      | PyVal.list _ => PyVal.none
      | _ => PyVal.none
    | Seg.fld k =>
      match obj with
      | PyVal.dict _ =>
        let child := get_value obj k
        if isNone child then PyVal.none else traverseKeys child ks
      | _ => PyVal.none

/-- Models get(obj, path, default=None) without a query, as the predicate
engine calls it: traverse, then return the default when the result is None. -/
def getPlain (obj : PyVal) (ks : List String) (dflt : PyVal) : PyVal :=
  let result := traverseKeys obj ks
  if isNone result then dflt else result

/-- One operator test of _match other than dollar-len (which recurses and
therefore lives in matchOps), with the document value already resolved.
Python's chained elif conditions fall through, for a recognised operator
whose test passes, to the final membership check, which is then
harmlessly true; the translation keeps that final check in the
otherwise-unreachable default branch.  Returns whether the loop
continues; ok false models the early return False. -/
def opBase (docValue : PyVal) (op : String) (v : PyVal) : Except String Bool :=
  if op == "$eq" then Except.ok (pyEq docValue v)
  else if op == "$ne" then Except.ok (!pyEq docValue v)
  else if op == "$gt" then
    if isNone docValue then Except.ok false else pyGt docValue v
  else if op == "$gte" then
    if isNone docValue then Except.ok false else pyGe docValue v
  else if op == "$lt" then
    if isNone docValue then Except.ok false else pyLt docValue v
  else if op == "$lte" then
    if isNone docValue then Except.ok false else pyLe docValue v
  else if op == "$in" then pyIn docValue v
  else if op == "$nin" then do
    let b ← pyIn docValue v
    Except.ok (!b)
  else if op ∈ ["$eq", "$ne", "$gt", "$gte", "$lt", "$lte", "$in", "$nin"] then
    Except.ok true
  else Except.error ("Unsupported operator: " ++ op)

/-- all(...) or any(...) of _match sub-evaluations for a combinator whose
value is not a list (that case recurses and lives in matchEntries):
iterating a mapping yields its keys and a string its characters, and
_match of a document against a bare string or character is False without
recursion, so the all is vacuous at best and the any never holds;
anything else is not iterable and raises TypeError. -/
def combIter (isAll : Bool) (v : PyVal) : Except String Bool :=
  match v with
  | PyVal.dict kvs2 => if isAll then Except.ok kvs2.isEmpty else Except.ok false
  | PyVal.str s => if isAll then Except.ok s.isEmpty else Except.ok false
  | _ => Except.error "TypeError: argument is not iterable"

mutual

/-- Models _match(document, query), the traversal-side predicate
evaluator: a non-dict query is False; otherwise every query entry must
pass.  Raises (ValueError) on an unsupported operator and propagates the
TypeErrors of len, comparisons and membership. -/
def _match (document query : PyVal) : Except String Bool :=
  match query with
  | PyVal.dict kvs => matchEntries document kvs
  | _ => Except.ok false
termination_by sizeOf query

/-- The loop over the query entries of _match; ok true means all entries
passed, ok false models the early return False. -/
def matchEntries (document : PyVal) (l : List (String × PyVal)) : Except String Bool :=
  match l with
  | [] => Except.ok true
  | (key, value) :: rest => do
    let pass ←
      if key == "$and" then
        match value with
        | PyVal.list qs => matchAll document qs
        | v2 => combIter true v2
      else if key == "$or" then
        match value with
        | PyVal.list qs => matchAny document qs
        | v2 => combIter false v2
      else if key == "$not" then do
        let b ← _match document value
        Except.ok (!b)
      else
        match value with
        | PyVal.dict ops => matchOps (getPlain document (splitDot key) PyVal.none) ops
        | _ => Except.ok (pyEq (getPlain document (splitDot key) PyVal.none) value)
    if pass then matchEntries document rest else Except.ok false
termination_by sizeOf l

/-- The operator loop of _match over one operator mapping, with the
document value already resolved.  The dollar-len operator is dispatched
here because its mapping form recurses into _match; all other operators
are decided by opBase (the operator names are mutually exclusive, so the
dispatch order of the source's elif chain does not matter). -/
def matchOps (docValue : PyVal) (l : List (String × PyVal)) : Except String Bool :=
  match l with
  | [] => Except.ok true
  | (op, v) :: rest => do
    let pass ←
      if op == "$len" then do
        let n ← pyLen docValue
        match _h : v with
        | PyVal.dict _ =>
          -- the recursive call _match with the one-field document
          -- mapping the key dollar-len to the length, and v as the query
          _match (PyVal.dict [("$len", PyVal.int (Int.ofNat n))]) v
        | _ => Except.ok (pyEq (PyVal.int (Int.ofNat n)) v)
      else opBase docValue op v
    if pass then matchOps docValue rest else Except.ok false
termination_by sizeOf l
decreasing_by all_goals (simp_wf <;> try subst_vars) <;> simp_arith

/-- all(_match(document, q) for q in qs), with Python short circuiting. -/
def matchAll (document : PyVal) (l : List PyVal) : Except String Bool :=
  match l with
  | [] => Except.ok true
  | q :: qs => do
    let b ← _match document q
    if b then matchAll document qs else Except.ok false
termination_by sizeOf l

/-- any(_match(document, q) for q in qs), with Python short circuiting. -/
def matchAny (document : PyVal) (l : List PyVal) : Except String Bool :=
  match l with
  | [] => Except.ok false
  | q :: qs => do
    let b ← _match document q
    if b then Except.ok true else matchAny document qs
termination_by sizeOf l

end

/-- The filtering comprehension of get with a query: keep the mapping-shaped
elements that satisfy _match; non-mapping elements are skipped without
evaluating the predicate (Python's and short circuits). -/
def filterDocs (q : PyVal) : List PyVal → Except String (List PyVal)
  | [] => Except.ok []
  | x :: xs =>
    if is_dict_object x then do
      let b ← _match x q
      let rest ← filterDocs q xs
      Except.ok (if b then x :: rest else rest)
    else do
      let rest ← filterDocs q xs
      Except.ok rest

/-- Models get(obj, path, default, query) for a single path string (the
batched branch dispatches the same call per path; no claim exercises it).
Traverse without creating; with a query and a sequence result, filter it;
finally return the default when the result is None. -/
def get (obj : PyVal) (path : String) (dflt : PyVal) (query : Option PyVal) :
    Except String PyVal :=
  let result := traverseKeys obj (splitDot path)
  match query with
  | Option.none => Except.ok (if isNone result then dflt else result)
  | Option.some q =>
    if isNone result then Except.ok dflt
    else
      match result with
      | PyVal.list xs => do
        let ys ← filterDocs q xs
        Except.ok (PyVal.list ys)
      | r => Except.ok r

/-- Models the key loop of set for a list of keys against the current node,
returning the updated node.  The source walks keys[:-1] creating as it
goes, then assigns at the last key, mutating in place; the model rebuilds
the visited spine.  Faithfully modelled slips of the source:
an intermediate Index segment always raises TypeError, because after the
sequence is grown (or a mapping destructively cleared and a detached
empty list created) the descent calls get_value with an integer key,
whose hasattr raises; a final Index segment always raises TypeError,
because set_value on a list calls setattr with an integer name; a final
Field segment checks is_dict_object(dict) — the builtin type, which has
an attribute dict — so the coercion branch is dead and set_value on a
non-mapping raises AttributeError.  When a Field segment meets a
non-mapping, the mapping coercion rebinds a local: a list is cleared in
place but the fresh mapping is detached, so the walk continues off-tree
(modelled by recursing on an empty mapping for its exception effect and
keeping the cleared node in the tree). -/
def setKeys (cur : PyVal) (keys : List String) (v : PyVal) : Except String PyVal :=
  match keys with
  | [] =>
    -- unreachable from a split path, which is never empty; Python would
    -- raise IndexError reading keys[-1]
    Except.error "IndexError: list index out of range"
  | [last] =>
    match parseKey last with
    | Seg.idx _ =>
      match cur with
      | PyVal.list _ => Except.error "TypeError: attribute name must be string"
      | _ => Except.error "TypeError: attribute name must be string"
    | Seg.fld k =>
      match cur with
      | PyVal.dict kvs => Except.ok (PyVal.dict (dictSet kvs k v))
      | _ => Except.error "AttributeError: cannot set attribute"
  | key :: ks =>
    match parseKey key with
    | Seg.idx _ =>
      match cur with
      | PyVal.list _ => Except.error "TypeError: attribute name must be string"
      | PyVal.dict _ => Except.error "TypeError: attribute name must be string"
      | _ => Except.error "TypeError: attribute name must be string"
    | Seg.fld k =>
      match cur with
      | PyVal.dict kvs =>
        let child := get_value cur k
        if !has_key cur k || !(is_dict_object child || is_list_object child) then do
          let child2 ← setKeys (PyVal.dict []) ks v
          -- the fresh empty mapping written at k is then mutated in place
          Except.ok (PyVal.dict (dictSet kvs k child2))
        else do
          let child2 ← setKeys child ks v
          Except.ok (PyVal.dict (dictSet kvs k child2))
      | PyVal.list _ => do
        -- cleared in place, then the walk continues on a detached mapping
        let _ ← setKeys (PyVal.dict []) ks v
        Except.ok (PyVal.list [])
      | other => do
        -- not a list: nothing cleared; the walk continues detached
        let _ ← setKeys (PyVal.dict []) ks v
        Except.ok other

/-- Models set(obj, path, value) for a single path string, returning the updated root. -/
def set (obj : PyVal) (path : String) (v : PyVal) : Except String PyVal :=
  setKeys obj (splitDot path) v

/-- Models delete(obj, path) for a single path string, returning the
updated root.  The source resolves the parent with the non-creating
traversal (so any Index segment before the last key makes it None and the
call a no-op), then removes the final element: an in-range index is
popped from a sequence, a field is popped from a mapping with a None
default; everything else is a no-op and nothing ever raises. -/
def delKeys (obj : PyVal) (keys : List String) : PyVal :=
  match keys with
  | [] => obj
  | [last] =>
    match parseKey last with
    | Seg.idx k =>
      match obj with
      | PyVal.list xs => if k < xs.length then PyVal.list (xs.eraseIdx k) else obj
      | _ => obj
    | Seg.fld k =>
      match obj with
      | PyVal.dict kvs => PyVal.dict (kvs.eraseP (fun p => p.1 == k))
      | _ => obj
  | key :: ks =>
    match parseKey key with
    | Seg.idx _ =>
      -- the parent traversal dies at an Index segment (see traverseKeys)
      obj
    | Seg.fld k =>
      match obj with
      | PyVal.dict kvs =>
        match kvs.lookup k with
        | Option.some child =>
          if isNone child then obj else PyVal.dict (dictSet kvs k (delKeys child ks))
        | Option.none => obj
      | _ => obj

/-- Models delete(obj, path) for a single path string. -/
def delete (obj : PyVal) (path : String) : PyVal :=
  delKeys obj (splitDot path)

/-- Models unset, an alias for delete. -/
def unset (obj : PyVal) (path : String) : PyVal :=
  delete obj path

/-- The loop of has, additionally exposing the value the walk ends on
(has itself only reports whether the walk completed).  Unlike the
traversals above, has indexes sequences directly (current[k]), so Index
segments work here: out-of-range indexing is caught and answers false. -/
def hasTrav (obj : PyVal) (keys : List String) : Option PyVal :=
  match keys with
  | [] => Option.some obj
  | key :: ks =>
    match parseKey key with
    | Seg.idx k =>
      match obj with
      | PyVal.list xs =>
        match xs.get? k with
        | Option.some e => hasTrav e ks
        | Option.none => Option.none
      | _ => Option.none
    | Seg.fld k =>
      match obj with
      | PyVal.dict _ =>
        if has_key obj k then hasTrav (get_value obj k) ks else Option.none
      | _ => Option.none

/-- Models has(obj, path) for a single path string: true exactly when the
walk of hasTrav completes. -/
def has (obj : PyVal) (path : String) : Bool :=
  (hasTrav obj (splitDot path)).isSome

/-- A path segment that parses as a Field. -/
def segIsFld (key : String) : Bool :=
  match parseKey key with
  | Seg.fld _ => true
  | Seg.idx _ => false

/-- Grows a sequence by appending empty mappings until the index is in
range (the while loop of the creating traversal). -/
def growDicts (xs : List PyVal) (k : Nat) : List PyVal :=
  if k < xs.length then xs
  else xs ++ List.replicate (k + 1 - xs.length) (PyVal.dict [])

/-- Models the creating traversal of push (_traverse with create_missing
true), combined with push's append: returns the updated tree and whether
the reached target was a sequence (in which case the pushed value has
been appended to it).  Faithful to the source's slips: an Index segment
grows the sequence (or destructively clears a mapping and continues on a
detached list) but then descends through get_value, whose hasattr with an
integer key raises TypeError, caught by the except clause, so the
traversal answers None and the flag is false while keeping the mutations;
a Field segment on a non-mapping continues on a detached fresh mapping,
inside which every created child is again a fresh mapping, so the
detached walk can never end on a sequence and is modelled by its tree
effect alone. -/
def travAppend (cur : PyVal) (keys : List String) (v : PyVal) : PyVal × Bool :=
  match keys with
  | [] =>
    match cur with
    | PyVal.list xs => (PyVal.list (xs ++ [v]), true)
    | _ => (cur, false)
  | key :: ks =>
    match parseKey key with
    | Seg.idx k =>
      match cur with
      | PyVal.list xs => (PyVal.list (growDicts xs k), false)
      | PyVal.dict _ => (PyVal.dict [], false)
      | other => (other, false)
    | Seg.fld k =>
      match cur with
      | PyVal.dict kvs =>
        if has_key cur k then
          let child := get_value cur k
          if isNone child then (PyVal.dict kvs, false)
          else
            let (child2, b) := travAppend child ks v
            (PyVal.dict (dictSet kvs k child2), b)
        else
          let (child2, b) := travAppend (PyVal.dict []) ks v
          (PyVal.dict (dictSet kvs k child2), b)
      | PyVal.list _ => (PyVal.list [], false)
      | other => (other, false)

/-- Models push(obj, path, value) for a single path string: run the
creating traversal; if it reached a sequence the value has been appended
there; otherwise fall back to set(obj, path, [value]) on the tree as
already mutated by the traversal. -/
def push (obj : PyVal) (path : String) (v : PyVal) : Except String PyVal :=
  let (obj2, appended) := travAppend obj (splitDot path) v
  if appended then Except.ok obj2
  else setKeys obj2 (splitDot path) (PyVal.list [v])

/-- Removes the elements that are mapping-shaped and match the sub-query
(pull collects their indices and pops them in descending order, which
amounts to this filter); _match errors propagate before any removal. -/
def removeMatching (q : PyVal) : List PyVal → Except String (List PyVal)
  | [] => Except.ok []
  | x :: xs =>
    if is_dict_object x then do
      let b ← _match x q
      let rest ← removeMatching q xs
      Except.ok (if b then rest else x :: rest)
    else do
      let rest ← removeMatching q xs
      Except.ok (x :: rest)

/-- Models pull(obj, path, value, index) on a list of keys, returning the
updated root.  The parent is resolved by the non-creating traversal (an
Index segment before the last key therefore makes the call a no-op).
Locating the target sequence: a final in-range Index into a sequence
parent reads it through get_value, whose hasattr with an integer key
raises TypeError (uncaught here); a final Field into a mapping parent
whose value is a sequence selects it; anything else is a no-op.  With a
valid in-range index, that position is popped; otherwise with a
non-None value, a mapping-shaped value removes the matching mapping
elements as a sub-query and any other value filters out the structurally
equal elements; a None value (also the default) is a no-op. -/
def pullKeys (obj : PyVal) (keys : List String) (v : PyVal) (index : Option Int) :
    Except String PyVal :=
  match keys with
  | [] => Except.ok obj
  | [last] =>
    match parseKey last with
    | Seg.idx k =>
      match obj with
      | PyVal.list xs =>
        if k < xs.length then Except.error "TypeError: attribute name must be string"
        else Except.ok obj
      | _ => Except.ok obj
    | Seg.fld k =>
      match obj with
      | PyVal.dict kvs =>
        match kvs.lookup k with
        | Option.some (PyVal.list xs) =>
          match index with
          | Option.some i =>
            if 0 ≤ i && i < Int.ofNat xs.length then
              Except.ok (PyVal.dict (dictSet kvs k (PyVal.list (xs.eraseIdx i.toNat))))
            else if !isNone v then
              if is_dict_object v then do
                let ys ← removeMatching v xs
                Except.ok (PyVal.dict (dictSet kvs k (PyVal.list ys)))
              else
                Except.ok (PyVal.dict (dictSet kvs k
                  (PyVal.list (xs.filter (fun e => !pyEq e v)))))
            else Except.ok obj
          | Option.none =>
            if !isNone v then
              if is_dict_object v then do
                let ys ← removeMatching v xs
                Except.ok (PyVal.dict (dictSet kvs k (PyVal.list ys)))
              else
                Except.ok (PyVal.dict (dictSet kvs k
                  (PyVal.list (xs.filter (fun e => !pyEq e v)))))
            else Except.ok obj
        | _ => Except.ok obj
      | _ => Except.ok obj
  | key :: ks =>
    match parseKey key with
    | Seg.idx _ => Except.ok obj
    | Seg.fld k =>
      match obj with
      | PyVal.dict kvs =>
        match kvs.lookup k with
        | Option.some child =>
          if isNone child then Except.ok obj
          else do
            let child2 ← pullKeys child ks v index
            Except.ok (PyVal.dict (dictSet kvs k child2))
        | Option.none => Except.ok obj
      | _ => Except.ok obj

/-- Models pull(obj, path, value, index) for a single path string. -/
def pull (obj : PyVal) (path : String) (v : PyVal) (index : Option Int) :
    Except String PyVal :=
  pullKeys obj (splitDot path) v index

/-- A value found by lookup is smaller than the association list holding it. -/
theorem sizeOf_lookup_lt (kvs : List (String × PyVal)) (k : String) (v : PyVal)
    (h : kvs.lookup k = Option.some v) : sizeOf v < sizeOf kvs := by
  induction kvs with
  | nil => simp [List.lookup] at h
  | cons p rest ih =>
    obtain ⟨k2, w⟩ := p
    simp only [List.lookup] at h
    by_cases hk : (k == k2) = true
    · rw [hk] at h
      simp at h
      subst h
      simp_arith
    · rw [Bool.not_eq_true] at hk
      rw [hk] at h
      have := ih h
      simp_arith
      omega

/-- Tests whether the characters i or m occur in the options value, as the
two containment tests on condition's dollar-options entry do: a string is
searched as a substring, a list by element equality, a mapping among its
keys; a non-iterable raises TypeError. -/
def optContains (opts : PyVal) (c : String) : Except String Bool :=
  match opts with
  | PyVal.str s => Except.ok (sContains s c)
  | PyVal.list xs => Except.ok (xs.any (fun x => pyEq (PyVal.str c) x))
  | PyVal.dict kvs => Except.ok (kvs.any (fun p => p.1 == c))
  | _ => Except.error "TypeError: argument is not iterable"

/-- Computes the regex flags (ignore-case, multiline) from the
dollar-options entry of the condition mapping, when present. -/
def regexFlags (condition : PyVal) : Except String (Bool × Bool) :=
  match condition with
  | PyVal.dict kvs =>
    match kvs.lookup "$options" with
    | Option.some opts => do
      let i ← optContains opts "i"
      let m ← optContains opts "m"
      Except.ok (i, m)
    | Option.none => Except.ok (false, false)
  | _ => Except.ok (false, false)

/-- Models re.search for metacharacter-free literal patterns only
(substring search honouring the ignore-case flag; the multiline flag is
irrelevant without anchors).  No claim exercises a regex operator, so
nothing below depends on this approximation. -/
def reSearch (pat s : String) (flags : Bool × Bool) : Bool :=
  if flags.1 then sContains s.toLower pat.toLower else sContains s pat

/-- The operator loop of match_condition over the entries of the condition
mapping, with the resolved field value precomputed.  Note the contrasts
with matchOps: ordered comparisons are unguarded, so a None value raises
TypeError; and an unknown operator is not an error but an exact-match
comparison of the value against the whole condition mapping. -/
def matchCondOps (condition value : PyVal) : List (String × PyVal) → Except String Bool
  | [] => Except.ok true
  | (op, opVal) :: rest => do
    let pass ←
      if op == "$regex" then do
        let flags ← regexFlags condition
        match value with
        | PyVal.str s =>
          match opVal with
          | PyVal.str pat => Except.ok (reSearch pat s flags)
          | _ => Except.error "TypeError: first argument must be string or pattern"
        | _ => Except.ok false
      else if op == "$lt" then pyLt value opVal
      else if op == "$lte" then pyLe value opVal
      else if op == "$gt" then pyGt value opVal
      else if op == "$gte" then pyGe value opVal
      else if op == "$in" then pyIn value opVal
      else if op == "$nin" then do
        let b ← pyIn value opVal
        Except.ok (!b)
      else if op == "$options" then Except.ok true
      else Except.ok (pyEq value condition)
    if pass then matchCondOps condition value rest else Except.ok false

/-- Models match_condition(item, key, condition): resolve the field value
with get (default None), then either run the operator loop (mapping
condition) or compare for equality (literal condition). -/
def match_condition (item : PyVal) (key : String) (condition : PyVal) :
    Except String Bool :=
  let value := getPlain item (splitDot key) PyVal.none
  match condition with
  | PyVal.dict kvs => matchCondOps condition value kvs
  | _ => Except.ok (pyEq value condition)

/-- all(match_condition(item, k, v) for k, v in query.items()), with
Python short circuiting. -/
def matchConds (item : PyVal) : List (String × PyVal) → Except String Bool
  | [] => Except.ok true
  | (k, v) :: rest => do
    let b ← match_condition item k v
    if b then matchConds item rest else Except.ok false

mutual

/-- Models match_item(item, query), the collection-side evaluator: a
dollar-and key runs all sub-queries, a dollar-or key runs any, otherwise
every entry is checked by match_condition.  A non-mapping query raises
(the containment test, the subscript or the items() call fails), as does
iterating a non-list combinator value; a combinator whose value is an
empty mapping or empty string iterates nothing. -/
def match_item (item query : PyVal) : Except String Bool :=
  match query with
  | PyVal.dict kvs =>
    match _ha : kvs.lookup "$and" with
    | Option.some v =>
      match _hv : v with
      | PyVal.list qs => matchItemAll item qs
      | PyVal.dict kvs2 =>
        -- iterating a mapping yields its keys; match_item against a bare
        -- string raises, so only an empty mapping passes vacuously
        if kvs2.isEmpty then Except.ok true
        else Except.error "TypeError: query is not a mapping"
      | PyVal.str s =>
        if s.isEmpty then Except.ok true
        else Except.error "TypeError: query is not a mapping"
      | _ => Except.error "TypeError: argument is not iterable"
    | Option.none =>
      match _ho : kvs.lookup "$or" with
      | Option.some v =>
        match _hv : v with
        | PyVal.list qs => matchItemAny item qs
        | PyVal.dict kvs2 =>
          if kvs2.isEmpty then Except.ok false
          else Except.error "TypeError: query is not a mapping"
        | PyVal.str s =>
          if s.isEmpty then Except.ok false
          else Except.error "TypeError: query is not a mapping"
        | _ => Except.error "TypeError: argument is not iterable"
      | Option.none => matchConds item kvs
  | _ =>
    -- the containment test, subscript or items() call on a non-mapping raises
    Except.error "TypeError: query is not a mapping"
termination_by sizeOf query
decreasing_by
  all_goals simp_wf
  · have h1 := sizeOf_lookup_lt _ _ _ _ha
    subst_vars
    simp_arith at h1 ⊢
    omega
  · have h1 := sizeOf_lookup_lt _ _ _ _ho
    subst_vars
    simp_arith at h1 ⊢
    omega

/-- all(match_item(item, q) for q in qs), with Python short circuiting. -/
def matchItemAll (item : PyVal) (l : List PyVal) : Except String Bool :=
  match l with
  | [] => Except.ok true
  | q :: qs => do
    let b ← match_item item q
    if b then matchItemAll item qs else Except.ok false
termination_by sizeOf l

/-- any(match_item(item, q) for q in qs), with Python short circuiting. -/
def matchItemAny (item : PyVal) (l : List PyVal) : Except String Bool :=
  match l with
  | [] => Except.ok false
  | q :: qs => do
    let b ← match_item item q
    if b then Except.ok true else matchItemAny item qs
termination_by sizeOf l

end

/-- Models find_first(items, query): the first matching item, or None. -/
def find_first (items : List PyVal) (query : PyVal) : Except String (Option PyVal) :=
  match items with
  | [] => Except.ok Option.none
  | i :: rest => do
    let b ← match_item i query
    if b then Except.ok (Option.some i) else find_first rest query

/-- Models find_all(items, query): all matching items in order. -/
def find_all (items : List PyVal) (query : PyVal) : Except String (List PyVal) :=
  match items with
  | [] => Except.ok []
  | i :: rest => do
    let b ← match_item i query
    let tail ← find_all rest query
    Except.ok (if b then i :: tail else tail)

/-- Computation rule for the Except monad: binding a success applies the continuation. -/
theorem exceptBindOk {a b : Type} (x : a) (f : a → Except String b) :
    (Except.ok x >>= f) = f x := rfl

/-- Computation rule for the Except monad: binding an error propagates it. -/
theorem exceptBindErr {a b : Type} (e : String) (f : a → Except String b) :
    ((Except.error e : Except String a) >>= f) = Except.error e := rfl

/-- C6: for every list of documents and every query on which find_all
succeeds with result l, l is a subsequence of the input (original relative
order preserved); if l is non-empty then find_first returns its first
element; and if l is empty (no item matches) then find_first returns the
absent-result sentinel None. -/
theorem np_c6 (items : List PyVal) (q : PyVal) (l : List PyVal)
    (h : find_all items q = Except.ok l) :
    List.Sublist l items ∧
    (∀ x xs, l = x :: xs → find_first items q = Except.ok (Option.some x)) ∧
    (l = [] → find_first items q = Except.ok Option.none) := by
  induction items generalizing l with
  | nil =>
    simp only [find_all, Except.ok.injEq] at h
    subst h
    refine ⟨List.Sublist.refl _, ?_, ?_⟩
    · intro x xs hx
      exact List.noConfusion hx
    · intro _
      rfl
  | cons i rest ih =>
    rw [find_all] at h
    cases hb : match_item i q with
    | error e => rw [hb, exceptBindErr] at h; cases h
    | ok b =>
      rw [hb, exceptBindOk] at h
      cases hr : find_all rest q with
      | error e => rw [hr, exceptBindErr] at h; cases h
      | ok tail =>
        rw [hr, exceptBindOk, Except.ok.injEq] at h
        obtain ⟨h1, h2, h3⟩ := ih tail hr
        cases b with
        | true =>
          simp at h
          subst h
          refine ⟨List.Sublist.cons₂ i h1, ?_, ?_⟩
          · intro x xs hx
            rw [List.cons.injEq] at hx
            rw [find_first, hb, exceptBindOk, hx.1]
            rfl
          · intro hx
            cases hx
        | false =>
          simp at h
          subst h
          refine ⟨List.Sublist.cons i h1, ?_, ?_⟩
          · intro x xs hx
            rw [find_first, hb, exceptBindOk]
            exact h2 x xs hx
          · intro hx
            rw [find_first, hb, exceptBindOk]
            exact h3 hx

/-- Witness for np_c6 at the spec's own scenario: two documents filtered
by an ordered comparison; find_all succeeds with one match and find_first
agrees with its head. -/
theorem np_c6_witness :
    find_all [PyVal.dict [("age", PyVal.int 5)], PyVal.dict [("age", PyVal.int 10)]]
        (PyVal.dict [("age", PyVal.dict [("$gte", PyVal.int 7)])]) =
      Except.ok [PyVal.dict [("age", PyVal.int 10)]] ∧
    find_first [PyVal.dict [("age", PyVal.int 5)], PyVal.dict [("age", PyVal.int 10)]]
        (PyVal.dict [("age", PyVal.dict [("$gte", PyVal.int 7)])]) =
      Except.ok (Option.some (PyVal.dict [("age", PyVal.int 10)])) := by
  have hall : find_all [PyVal.dict [("age", PyVal.int 5)], PyVal.dict [("age", PyVal.int 10)]]
      (PyVal.dict [("age", PyVal.dict [("$gte", PyVal.int 7)])]) =
      Except.ok [PyVal.dict [("age", PyVal.int 10)]] := by
    simp [find_all, match_item, matchConds, match_condition, matchCondOps, getPlain,
      traverseKeys, splitDot, splitDotAux, parseKey, get_value, pyGe, pyLe, regexFlags,
      isNone, List.lookup, exceptBindErr, exceptBindOk]
  exact ⟨hall, (np_c6 _ _ _ hall).2.1 _ [] rfl⟩

/-- Ordering with None on the left always raises (Python None is unorderable). -/
theorem pyLt_none_left (v : PyVal) :
    pyLt PyVal.none v = Except.error "TypeError: unorderable types" := by
  cases v <;> simp [pyLt]

/-- Ordering with None on the right always raises. -/
theorem pyLt_none_right (v : PyVal) :
    pyLt v PyVal.none = Except.error "TypeError: unorderable types" := by
  cases v <;> simp [pyLt]

/-- Non-strict ordering with None on the left always raises. -/
theorem pyLe_none_left (v : PyVal) :
    pyLe PyVal.none v = Except.error "TypeError: unorderable types" := by
  cases v <;> simp [pyLe]

/-- Non-strict ordering with None on the right always raises. -/
theorem pyLe_none_right (v : PyVal) :
    pyLe v PyVal.none = Except.error "TypeError: unorderable types" := by
  cases v <;> simp [pyLe]

/-- C1: on the spec's scenario set(root, a.b.0.c, 5) with an empty root the
code does not produce the claimed nested structure: after destructively
clearing the intermediate mapping and building a detached sequence, the
descent reads the new sequence through get_value, whose hasattr call with
the integer key 0 raises TypeError, so the whole call raises (and the
claimed assignment never happens). -/
theorem np_c1 :
    set (PyVal.dict []) "a.b.0.c" (PyVal.int 5) =
      Except.error "TypeError: attribute name must be string" := by
  rfl

/-- C2: the round-trip get-after-set fails on a path with no existing
incompatible-typed ancestor: with root mapping a to an empty sequence
(an Index-compatible ancestor), set(root, a.0, 5) raises TypeError,
because the final assignment into a sequence goes through set_value,
which calls setattr with the integer name 0; so get after set cannot
return the value. -/
theorem np_c2 :
    set (PyVal.dict [("a", PyVal.list [])]) "a.0" (PyVal.int 5) =
      Except.error "TypeError: attribute name must be string" := by
  rfl

/-- C5: the query on field tags pairing dollar-len with the operator
mapping dollar-gt 3 does not match a document whose tags has length 4,
although 4 is greater than 3: the recursive call passes the operator
mapping as the query against the one-field document holding the length,
so dollar-gt is looked up as a document field (absent, hence None) and
compared literally with 3, which fails. -/
theorem np_c5 :
    _match (PyVal.dict [("tags", PyVal.list [PyVal.int 1, PyVal.int 2, PyVal.int 3, PyVal.int 4])])
        (PyVal.dict [("tags", PyVal.dict [("$len", PyVal.dict [("$gt", PyVal.int 3)])])]) =
      Except.ok false := by
  simp [_match, matchEntries, matchOps, opBase, getPlain, traverseKeys, splitDot,
    splitDotAux, parseKey, get_value, isNone, pyEq, pyLen, exceptBindErr, exceptBindOk,
    List.lookup]

/-- C7: push on the absent path a.0 of an empty root raises TypeError
instead of creating a one-element sequence: the creating traversal
destructively coerces and then dies at the Index segment (hasattr with an
integer name, caught), and the fallback set raises at the same place
uncaught; so get cannot observe the claimed one-element sequence. -/
theorem np_c7 :
    push (PyVal.dict []) "a.0" (PyVal.int 7) =
      Except.error "TypeError: attribute name must be string" := by
  rfl

/-- C3 counterexample: in the find_all context an unrecognized operator
does not raise: the whole query evaluates silently (the unknown operator
mapping is compared for equality with the resolved value) and find_all
returns ok with no matches, where the claim requires an
unsupported-operator error. -/
theorem np_c3_cex :
    find_all [PyVal.dict [("field", PyVal.int 1)]]
        (PyVal.dict [("field", PyVal.dict [("$foo", PyVal.int 1)])]) =
      Except.ok [] := by
  simp [find_all, match_item, matchConds, match_condition, matchCondOps, getPlain,
    traverseKeys, splitDot, splitDotAux, parseKey, get_value, pyEq, isNone,
    List.lookup, exceptBindErr, exceptBindOk]

/-- C3 as amended: an unrecognized operator name raises the typed
unsupported-operator error in the traversal-side evaluator _match (used
by get with a query and by pull with a sub-query), but in the
collection-side evaluator match_condition (used by find_first and
find_all) it is treated as an exact-match comparison of the resolved
value against the whole operator mapping and never raises. -/
theorem np_c3 (doc : PyVal) (f op : String) (v : PyVal)
    (hf : f ∉ (["$and", "$or", "$not"] : List String))
    (hop : op ∉ (["$eq", "$ne", "$gt", "$gte", "$lt", "$lte", "$in", "$nin", "$len",
      "$regex", "$options"] : List String)) :
    _match doc (PyVal.dict [(f, PyVal.dict [(op, v)])]) =
      Except.error ("Unsupported operator: " ++ op) ∧
    match_condition doc f (PyVal.dict [(op, v)]) =
      Except.ok (pyEq (getPlain doc (splitDot f) PyVal.none) (PyVal.dict [(op, v)])) := by
  simp only [List.mem_cons, List.not_mem_nil, not_or, or_false] at hf hop
  obtain ⟨hf1, hf2, hf3⟩ := hf
  obtain ⟨h1, h2, h3, h4, h5, h6, h7, h8, h9, h10, h11⟩ := hop
  have bf1 : (f == "$and") = false := by simp [hf1]
  have bf2 : (f == "$or") = false := by simp [hf2]
  have bf3 : (f == "$not") = false := by simp [hf3]
  have b1 : (op == "$eq") = false := by simp [h1]
  have b2 : (op == "$ne") = false := by simp [h2]
  have b3 : (op == "$gt") = false := by simp [h3]
  have b4 : (op == "$gte") = false := by simp [h4]
  have b5 : (op == "$lt") = false := by simp [h5]
  have b6 : (op == "$lte") = false := by simp [h6]
  have b7 : (op == "$in") = false := by simp [h7]
  have b8 : (op == "$nin") = false := by simp [h8]
  have b9 : (op == "$len") = false := by simp [h9]
  have b10 : (op == "$regex") = false := by simp [h10]
  have b11 : (op == "$options") = false := by simp [h11]
  have hmem : op ∉ (["$eq", "$ne", "$gt", "$gte", "$lt", "$lte", "$in", "$nin"] :
      List String) := by
    simp [h1, h2, h3, h4, h5, h6, h7, h8]
  constructor
  · simp only [_match, matchEntries, matchOps, opBase, bf1, bf2, bf3, b1, b2, b3, b4,
      b5, b6, b7, b8, b9, Bool.false_eq_true, if_false, hmem, ite_false,
      exceptBindErr]
  · simp only [match_condition, matchCondOps, b1, b2, b3, b4, b5, b6, b7, b8, b10,
      b11, Bool.false_eq_true, if_false, exceptBindOk]
    cases hpe : pyEq (getPlain doc (splitDot f) PyVal.none) (PyVal.dict [(op, v)]) <;>
      simp [hpe, matchCondOps, exceptBindOk]

/-- Witness for np_c3 at the unknown operator dollar-foo on a one-field
document: _match raises and match_condition answers false without raising. -/
theorem np_c3_witness :
    _match (PyVal.dict [("field", PyVal.int 1)])
        (PyVal.dict [("field", PyVal.dict [("$foo", PyVal.int 1)])]) =
      Except.error ("Unsupported operator: " ++ "$foo") ∧
    match_condition (PyVal.dict [("field", PyVal.int 1)]) "field"
        (PyVal.dict [("$foo", PyVal.int 1)]) =
      Except.ok (pyEq (getPlain (PyVal.dict [("field", PyVal.int 1)])
        (splitDot "field") PyVal.none) (PyVal.dict [("$foo", PyVal.int 1)])) :=
  np_c3 (PyVal.dict [("field", PyVal.int 1)]) "field" "$foo" (PyVal.int 1)
    (by decide) (by decide)

/-- C4 counterexample: in the collection-side evaluator an ordered
comparison against an absent field raises TypeError (None is unorderable)
instead of evaluating to false as the claim requires of both evaluators. -/
theorem np_c4_cex :
    match_condition (PyVal.dict []) "age" (PyVal.dict [("$lt", PyVal.int 5)]) =
      Except.error "TypeError: unorderable types" := by
  simp [match_condition, matchCondOps, getPlain, traverseKeys, splitDot, splitDotAux,
    parseKey, get_value, isNone, pyLt, regexFlags, List.lookup, exceptBindErr,
    exceptBindOk]

/-- C4 as amended: when the resolved value is absent, an ordered
comparison operator makes the predicate false without raising in the
traversal-side evaluator _match, but raises TypeError in the
collection-side evaluator match_condition. -/
theorem np_c4 (doc : PyVal) (key : String) (v : PyVal) (op : String)
    (hop : op ∈ (["$gt", "$gte", "$lt", "$lte"] : List String))
    (hk : key ∉ (["$and", "$or", "$not"] : List String))
    (h : traverseKeys doc (splitDot key) = PyVal.none) :
    _match doc (PyVal.dict [(key, PyVal.dict [(op, v)])]) = Except.ok false ∧
    (∃ e, match_condition doc key (PyVal.dict [(op, v)]) = Except.error e) := by
  simp only [List.mem_cons, List.not_mem_nil, not_or, or_false] at hk
  obtain ⟨hk1, hk2, hk3⟩ := hk
  have bf1 : (key == "$and") = false := by simp [hk1]
  have bf2 : (key == "$or") = false := by simp [hk2]
  have bf3 : (key == "$not") = false := by simp [hk3]
  have hgp : getPlain doc (splitDot key) PyVal.none = PyVal.none := by
    simp [getPlain, h, isNone]
  simp only [List.mem_cons, List.not_mem_nil, or_false] at hop
  rcases hop with rfl | rfl | rfl | rfl <;>
    refine ⟨?_, "TypeError: unorderable types", ?_⟩ <;>
    first
      | (simp [_match, matchEntries, matchOps, opBase, bf1, bf2, bf3, hgp, isNone,
          exceptBindErr, exceptBindOk]
         done)
      | (simp [match_condition, matchCondOps, hgp, pyGt, pyGe, pyLt_none_left,
          pyLt_none_right, pyLe_none_left, pyLe_none_right, regexFlags,
          exceptBindErr, exceptBindOk])

/-- Witness for np_c4 on an empty document and the operator dollar-lt:
_match answers false and match_condition raises. -/
theorem np_c4_witness :
    _match (PyVal.dict []) (PyVal.dict [("age", PyVal.dict [("$lt", PyVal.int 5)])]) =
      Except.ok false ∧
    (∃ e, match_condition (PyVal.dict []) "age" (PyVal.dict [("$lt", PyVal.int 5)]) =
      Except.error e) :=
  np_c4 (PyVal.dict []) "age" (PyVal.int 5) "$lt" (by decide) (by decide) (by rfl)

/-- If the walk of has ends on a stored None, the non-creating traversal
answers None (it conflates a stored None with absence, and it also dies
at any Index segment the has walk may have crossed). -/
theorem hasTrav_none_traverse (ks : List String) :
    ∀ obj : PyVal, hasTrav obj ks = Option.some PyVal.none →
      traverseKeys obj ks = PyVal.none := by
  induction ks with
  | nil =>
    intro obj h
    simp only [hasTrav, Option.some.injEq] at h
    subst h
    rfl
  | cons key ks ih =>
    intro obj h
    cases hp : parseKey key with
    | idx k =>
      cases obj <;> simp [traverseKeys, hp]
    | fld k =>
      cases obj with
      | dict kvs =>
        simp only [hasTrav, hp] at h
        simp only [traverseKeys, hp]
        by_cases hk : has_key (PyVal.dict kvs) k = true
        · rw [if_pos hk] at h
          by_cases hn : isNone (get_value (PyVal.dict kvs) k) = true
          · rw [if_pos hn]
          · rw [if_neg hn]
            exact ih _ h
        · rw [if_neg hk] at h
          cases h
      | none => simp [hasTrav, hp] at h
      | int n => simp [hasTrav, hp] at h
      | str s => simp [hasTrav, hp] at h
      | list xs => simp [hasTrav, hp] at h

/-- C10: a stored null is indistinguishable from an absent path for get
but not for has: when the final segment resolves to a present location
holding None (the walk of has ends on a stored None), get returns the
supplied default while has returns true. -/
theorem np_c10 (root : PyVal) (p : String) (dflt : PyVal)
    (h : hasTrav root (splitDot p) = Option.some PyVal.none) :
    get root p dflt Option.none = Except.ok dflt ∧ has root p = true := by
  constructor
  · have ht := hasTrav_none_traverse (splitDot p) root h
    simp [get, ht, isNone]
  · simp [has, h]

/-- Witness for np_c10: the mapping a maps to b maps to None, read at
path a.b with default 99. -/
theorem np_c10_witness :
    get (PyVal.dict [("a", PyVal.dict [("b", PyVal.none)])]) "a.b" (PyVal.int 99)
      Option.none = Except.ok (PyVal.int 99) ∧
    has (PyVal.dict [("a", PyVal.dict [("b", PyVal.none)])]) "a.b" = true :=
  np_c10 (PyVal.dict [("a", PyVal.dict [("b", PyVal.none)])]) "a.b" (PyVal.int 99)
    (by rfl)

/-- Splitting a path never yields an empty list of segments. -/
theorem splitDotAux_ne_nil (cs : List Char) : ∀ acc, splitDotAux cs acc ≠ [] := by
  induction cs with
  | nil => intro acc; simp [splitDotAux]
  | cons c cs ih =>
    intro acc
    rw [splitDotAux]
    by_cases hc : c = '.'
    · rw [if_pos hc]
      simp
    · rw [if_neg hc]
      exact ih (c :: acc)

/-- Splitting a path never yields an empty list of segments. -/
theorem splitDot_ne_nil (p : String) : splitDot p ≠ [] :=
  splitDotAux_ne_nil p.toList []

/-- Updating a key and looking it up gives back the new value. -/
theorem lookup_dictSet_self (kvs : List (String × PyVal)) (k : String) (v : PyVal) :
    (dictSet kvs k v).lookup k = Option.some v := by
  induction kvs with
  | nil => simp [dictSet, List.lookup]
  | cons p rest ih =>
    obtain ⟨k2, w⟩ := p
    rw [dictSet]
    by_cases hk : k2 = k
    · subst hk
      simp [List.lookup]
    · have h1 : (k2 == k) = false := by simp [hk]
      have h2 : (k == k2) = false := by simp [Ne.symm hk]
      rw [h1]
      simp only [List.lookup, h2]
      exact ih

/-- Writing back the value a key already holds leaves the mapping unchanged. -/
theorem dictSet_self_of_lookup (kvs : List (String × PyVal)) (k : String) (c : PyVal) :
    kvs.lookup k = Option.some c → dictSet kvs k c = kvs := by
  induction kvs with
  | nil => intro h; simp [List.lookup] at h
  | cons p rest ih =>
    obtain ⟨k2, w⟩ := p
    intro h
    rw [dictSet]
    by_cases hk : k2 = k
    · subst hk
      simp only [List.lookup, beq_self_eq_true] at h
      simp at h
      subst h
      simp [beq_self_eq_true]
    · have h1 : (k2 == k) = false := by simp [hk]
      have h2 : (k == k2) = false := by simp [Ne.symm hk]
      rw [h1]
      simp only [List.lookup, h2] at h
      simp [ih h]

/-- Key containment agrees with lookup success. -/
theorem has_key_eq_lookup (kvs : List (String × PyVal)) (k : String) :
    has_key (PyVal.dict kvs) k = (kvs.lookup k).isSome := by
  induction kvs with
  | nil => simp [has_key, List.lookup]
  | cons p rest ih =>
    obtain ⟨k2, w⟩ := p
    by_cases hk : k2 = k
    · subst hk
      simp [has_key, List.lookup]
    · have h1 : (k2 == k) = false := by simp [hk]
      have h2 : (k == k2) = false := by simp [Ne.symm hk]
      simp only [has_key, List.any, h1, Bool.false_or, List.lookup, h2]
      simpa [has_key] using ih

/-- After erasing a key from a mapping without duplicate keys, the key is gone. -/
theorem eraseP_key_gone (kvs : List (String × PyVal)) (k : String)
    (hnd : nodupKeys kvs = true) :
    (kvs.eraseP (fun p => p.1 == k)).any (fun p => p.1 == k) = false := by
  induction kvs with
  | nil => simp
  | cons p rest ih =>
    obtain ⟨k2, w⟩ := p
    rw [nodupKeys] at hnd
    simp only [Bool.and_eq_true] at hnd
    by_cases hk : k2 = k
    · subst hk
      simp only [List.eraseP_cons, beq_self_eq_true, cond_true]
      simpa using hnd.1
    · have h1 : (k2 == k) = false := by simp [hk]
      simp only [List.eraseP_cons, h1, cond_false, List.any_cons, Bool.false_or]
      exact ih hnd.2

/-- Erasing an absent key is the identity. -/
theorem eraseP_of_no_key (kvs : List (String × PyVal)) (k : String)
    (h : kvs.any (fun p => p.1 == k) = false) :
    kvs.eraseP (fun p => p.1 == k) = kvs := by
  induction kvs with
  | nil => simp
  | cons p rest ih =>
    obtain ⟨k2, w⟩ := p
    simp only [List.any_cons, Bool.or_eq_false_iff] at h
    simp only [List.eraseP_cons, h.1, cond_false]
    rw [ih h.2]

/-- The value found at a key of a well-formed entry list is well formed. -/
theorem wfEntries_lookup (kvs : List (String × PyVal)) (k : String) (c : PyVal)
    (hwf : wfEntries kvs = true) (h : kvs.lookup k = Option.some c) : wfV c = true := by
  induction kvs with
  | nil => simp [List.lookup] at h
  | cons p rest ih =>
    obtain ⟨k2, w⟩ := p
    rw [wfEntries] at hwf
    simp only [Bool.and_eq_true] at hwf
    by_cases hk : k = k2
    · simp only [List.lookup, hk, beq_self_eq_true] at h
      simp at h
      subst h
      exact hwf.1
    · have h2 : (k == k2) = false := by simp [hk]
      simp only [List.lookup, h2] at h
      exact ih hwf.2 h

/-- The non-creating traversal of None is None for every key list. -/
theorem traverseKeys_of_none (ks : List String) :
    traverseKeys PyVal.none ks = PyVal.none := by
  cases ks with
  | nil => rfl
  | cons key ks =>
    cases hp : parseKey key <;> simp [traverseKeys, hp]

/-- The walk of has dies immediately on None when keys remain. -/
theorem hasTrav_of_none (key : String) (ks : List String) :
    hasTrav PyVal.none (key :: ks) = Option.none := by
  cases hp : parseKey key <;> simp [hasTrav, hp]

/-- When the non-creating traversal reaches a sequence, pull with a
non-None non-mapping value succeeds and the path afterwards holds exactly
the elements not structurally equal to the value, in their original order. -/
theorem pullKeys_filter (v : PyVal) (hv : isNone v = false)
    (hm : is_dict_object v = false) (ks : List String) :
    ∀ (root : PyVal) (xs : List PyVal),
      traverseKeys root ks = PyVal.list xs → ks ≠ [] →
      ∃ root2, pullKeys root ks v Option.none = Except.ok root2 ∧
        traverseKeys root2 ks = PyVal.list (xs.filter (fun e => !pyEq e v)) := by
  induction ks with
  | nil =>
    intro root xs _ hne
    exact absurd rfl hne
  | cons key rest ih =>
    intro root xs h _
    cases hp : parseKey key with
    | idx k =>
      exfalso
      cases root <;> simp [traverseKeys, hp] at h
    | fld k =>
      cases root with
      | dict kvs =>
        simp only [traverseKeys, hp] at h
        by_cases hn : isNone (get_value (PyVal.dict kvs) k) = true
        · rw [if_pos hn] at h
          cases h
        · rw [if_neg hn] at h
          obtain ⟨c, hc⟩ : ∃ c, kvs.lookup k = Option.some c := by
            cases hl : kvs.lookup k with
            | none =>
              exfalso
              apply hn
              simp [get_value, hl, isNone]
            | some c => exact ⟨c, rfl⟩
          have hchild : get_value (PyVal.dict kvs) k = c := by simp [get_value, hc]
          rw [hchild] at h hn
          simp only [Bool.not_eq_true] at hn
          cases rest with
          | nil =>
            simp only [traverseKeys] at h
            subst h
            refine ⟨PyVal.dict (dictSet kvs k
              (PyVal.list (xs.filter (fun e => !pyEq e v)))), ?_, ?_⟩
            · simp [pullKeys, hp, hc, hv, hm]
            · simp only [traverseKeys, hp]
              have hgv : get_value (PyVal.dict (dictSet kvs k
                  (PyVal.list (xs.filter (fun e => !pyEq e v))))) k =
                  PyVal.list (xs.filter (fun e => !pyEq e v)) := by
                simp [get_value, lookup_dictSet_self]
              rw [hgv]
              simp [isNone]
          | cons k2 ks2 =>
            obtain ⟨c2, hpull, htrav⟩ := ih c xs h (by simp)
            refine ⟨PyVal.dict (dictSet kvs k c2), ?_, ?_⟩
            · simp [pullKeys, hp, hc, hn, hpull, exceptBindOk]
            · simp only [traverseKeys, hp]
              have hgv : get_value (PyVal.dict (dictSet kvs k c2)) k = c2 := by
                simp [get_value, lookup_dictSet_self]
              rw [hgv]
              have hc2 : isNone c2 = false := by
                cases hcc : c2 <;> simp only [isNone]
                exfalso
                rw [hcc, traverseKeys_of_none] at htrav
                cases htrav
              rw [hc2]
              simp only [Bool.false_eq_true, if_false]
              exact htrav
      | none =>
        exfalso
        simp [traverseKeys, hp] at h
      | int n =>
        exfalso
        simp [traverseKeys, hp] at h
      | str s =>
        exfalso
        simp [traverseKeys, hp] at h
      | list xs2 =>
        exfalso
        simp [traverseKeys, hp] at h

/-- C8 as amended: for every root whose path resolves (under the library's
own non-creating traversal) to a sequence and every non-mapping value
other than None, pull with no index succeeds and afterwards the path
holds exactly the elements not structurally equal to the value, in their
original relative order.  (A None value, being the parameter's default,
makes pull a no-op instead; see the counterexample.) -/
theorem np_c8 (root : PyVal) (p : String) (v : PyVal) (xs : List PyVal)
    (hv : isNone v = false) (hm : is_dict_object v = false)
    (ht : traverseKeys root (splitDot p) = PyVal.list xs) :
    ∃ root2, pull root p v Option.none = Except.ok root2 ∧
      traverseKeys root2 (splitDot p) = PyVal.list (xs.filter (fun e => !pyEq e v)) :=
  pullKeys_filter v hv hm (splitDot p) root xs ht (splitDot_ne_nil p)

/-- Witness for np_c8 at the spec's scenario: pulling the scalar 2 from
the sequence 1, 2, 2, 3 leaves exactly 1, 3. -/
theorem np_c8_witness :
    ∃ root2,
      pull (PyVal.dict [("list", PyVal.list [PyVal.int 1, PyVal.int 2, PyVal.int 2,
        PyVal.int 3])]) "list" (PyVal.int 2) Option.none = Except.ok root2 ∧
      traverseKeys root2 (splitDot "list") = PyVal.list [PyVal.int 1, PyVal.int 3] := by
  have h := np_c8 (PyVal.dict [("list", PyVal.list [PyVal.int 1, PyVal.int 2,
    PyVal.int 2, PyVal.int 3])]) "list" (PyVal.int 2)
    [PyVal.int 1, PyVal.int 2, PyVal.int 2, PyVal.int 3] (by rfl) (by rfl) (by rfl)
  simpa [pyEq] using h

/-- C8 counterexample: with the value None (a non-mapping value, also the
parameter's default) pull is a no-op: the occurrence of None in the
sequence is not removed, where the claim requires every structurally
equal occurrence to be removed. -/
theorem np_c8_cex :
    pull (PyVal.dict [("list", PyVal.list [PyVal.none, PyVal.int 1])]) "list"
        PyVal.none Option.none =
      Except.ok (PyVal.dict [("list", PyVal.list [PyVal.none, PyVal.int 1])]) ∧
    PyVal.dict [("list", PyVal.list [PyVal.none, PyVal.int 1])] ≠
      PyVal.dict [("list", PyVal.list [PyVal.int 1])] := by
  constructor
  · rfl
  · simp

/-- If the walk of has fails on a path, delete leaves the root unchanged
(and, the model being a total function, it raises nothing). -/
theorem delKeys_noop (ks : List String) :
    ∀ obj, hasTrav obj ks = Option.none → delKeys obj ks = obj := by
  induction ks with
  | nil =>
    intro obj h
    simp [hasTrav] at h
  | cons key rest ih =>
    intro obj h
    cases rest with
    | nil =>
      cases hp : parseKey key with
      | idx k =>
        cases obj with
        | list xs =>
          simp only [hasTrav, hp] at h
          cases hg : xs.get? k with
          | some e =>
            rw [hg] at h
            simp [hasTrav] at h
          | none =>
            have hk : ¬ k < xs.length := by
              intro hlt
              rw [List.get?_eq_get hlt] at hg
              cases hg
            simp [delKeys, hp, hk]
        | none => simp [delKeys, hp]
        | int n => simp [delKeys, hp]
        | str s => simp [delKeys, hp]
        | dict kvs => simp [delKeys, hp]
      | fld k =>
        cases obj with
        | dict kvs =>
          simp only [hasTrav, hp] at h
          by_cases hk : has_key (PyVal.dict kvs) k = true
          · rw [if_pos hk] at h
            simp [hasTrav] at h
          · have hk2 : (kvs.any fun p => p.1 == k) = false := by
              cases hb : (kvs.any fun p => p.1 == k) with
              | false => rfl
              | true => exact absurd (by simp [has_key, hb]) hk
            simp [delKeys, hp, eraseP_of_no_key kvs k hk2]
        | none => simp [delKeys, hp]
        | int n => simp [delKeys, hp]
        | str s => simp [delKeys, hp]
        | list xs => simp [delKeys, hp]
    | cons k2 ks2 =>
      cases hp : parseKey key with
      | idx k => simp [delKeys, hp]
      | fld k =>
        cases obj with
        | dict kvs =>
          simp only [hasTrav, hp] at h
          by_cases hk : has_key (PyVal.dict kvs) k = true
          · rw [if_pos hk] at h
            have hsome : (kvs.lookup k).isSome := by
              rw [← has_key_eq_lookup]
              exact hk
            obtain ⟨c, hc⟩ : ∃ c, kvs.lookup k = Option.some c := by
              cases hl : kvs.lookup k with
              | none => rw [hl] at hsome; cases hsome
              | some c => exact ⟨c, rfl⟩
            have hchild : get_value (PyVal.dict kvs) k = c := by simp [get_value, hc]
            rw [hchild] at h
            by_cases hnc : isNone c = true
            · simp [delKeys, hp, hc, hnc]
            · simp only [Bool.not_eq_true] at hnc
              simp [delKeys, hp, hc, hnc, ih c h, dictSet_self_of_lookup kvs k c hc]
          · have hnone : kvs.lookup k = Option.none := by
              have heq := has_key_eq_lookup kvs k
              rw [heq] at hk
              cases hl : kvs.lookup k with
              | none => rfl
              | some c => rw [hl] at hk; cases hk rfl
            simp [delKeys, hp, hnone]
        | none => simp [delKeys, hp]
        | int n => simp [delKeys, hp]
        | str s => simp [delKeys, hp]
        | list xs => simp [delKeys, hp]

/-- After delete on a present all-Field path of a well-formed root, the
walk of has fails: the final field was popped from its (duplicate-free)
parent mapping and the untouched prefix still leads there. -/
theorem delKeys_removes (ks : List String) :
    ∀ obj, wfV obj = true → (∀ key ∈ ks, segIsFld key = true) →
      hasTrav obj ks ≠ Option.none → ks ≠ [] →
      hasTrav (delKeys obj ks) ks = Option.none := by
  induction ks with
  | nil =>
    intro obj _ _ _ hne
    exact absurd rfl hne
  | cons key rest ih =>
    intro obj hwf hall h _
    have hfld : segIsFld key = true := hall key (by simp)
    cases hp : parseKey key with
    | idx k =>
      exfalso
      simp [segIsFld, hp] at hfld
    | fld k =>
      cases obj with
      | dict kvs =>
        simp only [hasTrav, hp] at h
        by_cases hk : has_key (PyVal.dict kvs) k = true
        case neg =>
          rw [if_neg hk] at h
          exact absurd rfl h
        rw [if_pos hk] at h
        have hsome : (kvs.lookup k).isSome := by
          rw [← has_key_eq_lookup]
          exact hk
        obtain ⟨c, hc⟩ : ∃ c, kvs.lookup k = Option.some c := by
          cases hl : kvs.lookup k with
          | none => rw [hl] at hsome; cases hsome
          | some c => exact ⟨c, rfl⟩
        have hchild : get_value (PyVal.dict kvs) k = c := by simp [get_value, hc]
        rw [hchild] at h
        have hwfd : nodupKeys kvs = true ∧ wfEntries kvs = true := by
          simpa [wfV, Bool.and_eq_true] using hwf
        cases rest with
        | nil =>
          simp only [delKeys, hp]
          simp only [hasTrav, hp]
          have hgone : has_key (PyVal.dict (kvs.eraseP fun p => p.1 == k)) k = false := by
            simpa [has_key] using eraseP_key_gone kvs k hwfd.1
          rw [hgone]
          simp
        | cons k2 ks2 =>
          have hnc : isNone c = false := by
            cases hcc : c <;> simp only [isNone]
            exfalso
            rw [hcc, hasTrav_of_none] at h
            exact h rfl
          have hwc : wfV c = true := wfEntries_lookup kvs k c hwfd.2 hc
          have hrec := ih c hwc (fun key2 hk2 => hall key2 (by simp [hk2])) h (by simp)
          simp only [delKeys, hp, hc, hnc]
          simp only [Bool.false_eq_true, if_false]
          simp only [hasTrav, hp]
          have hhk : has_key (PyVal.dict (dictSet kvs k (delKeys c (k2 :: ks2)))) k
              = true := by
            rw [has_key_eq_lookup, lookup_dictSet_self]
            rfl
          rw [hhk]
          have hgv : get_value (PyVal.dict (dictSet kvs k (delKeys c (k2 :: ks2)))) k
              = delKeys c (k2 :: ks2) := by
            simp [get_value, lookup_dictSet_self]
          simp only [if_true, hgv]
          exact hrec
      | none =>
        exfalso
        simp [hasTrav, hp] at h
      | int n =>
        exfalso
        simp [hasTrav, hp] at h
      | str s =>
        exfalso
        simp [hasTrav, hp] at h
      | list xs =>
        exfalso
        simp [hasTrav, hp] at h

/-- C9 as amended: delete never raises (it is modelled total) and is a
no-op when the path is absent (has false), leaving the root completely
unchanged; and for a previously-present path all of whose segments are
Fields, has is false after delete.  (For a path with an Index segment the
original claim fails: deleting from a sequence shifts later elements, so
the index can remain present; see the counterexample.) -/
theorem np_c9 (root : PyVal) (p : String) :
    (has root p = false → delete root p = root) ∧
    (wfV root = true → has root p = true → (splitDot p).all segIsFld = true →
      has (delete root p) p = false) := by
  constructor
  · intro h
    have h2 : hasTrav root (splitDot p) = Option.none := by
      cases hh : hasTrav root (splitDot p) with
      | none => rfl
      | some v =>
        rw [has, hh] at h
        cases h
    exact delKeys_noop (splitDot p) root h2
  · intro hwf hhas hall
    have h1 : hasTrav root (splitDot p) ≠ Option.none := by
      intro hcon
      rw [has, hcon] at hhas
      cases hhas
    have hallm : ∀ key ∈ splitDot p, segIsFld key = true :=
      fun key hk => List.all_eq_true.mp hall key hk
    have hres := delKeys_removes (splitDot p) root hwf hallm h1 (splitDot_ne_nil p)
    simp [has, delete, hres]

/-- Witness for np_c9: deleting the absent path b of the mapping a maps
to 1 leaves it unchanged, and after deleting the present all-Field path a
the check has answers false. -/
theorem np_c9_witness :
    delete (PyVal.dict [("a", PyVal.int 1)]) "b" = PyVal.dict [("a", PyVal.int 1)] ∧
    has (delete (PyVal.dict [("a", PyVal.int 1)]) "a") "a" = false :=
  ⟨(np_c9 (PyVal.dict [("a", PyVal.int 1)]) "b").1 (by rfl),
   (np_c9 (PyVal.dict [("a", PyVal.int 1)]) "a").2
     (by simp [wfV, nodupKeys, wfEntries]) (by rfl) (by rfl)⟩

/-- C9 counterexample: the path a.0 is present in the mapping a maps to
the two-element sequence 1, 2; delete pops the first element, the second
shifts into index 0, and has still answers true afterwards, where the
claim requires false for every previously-present path. -/
theorem np_c9_cex :
    has (PyVal.dict [("a", PyVal.list [PyVal.int 1, PyVal.int 2])]) "a.0" = true ∧
    delete (PyVal.dict [("a", PyVal.list [PyVal.int 1, PyVal.int 2])]) "a.0" =
      PyVal.dict [("a", PyVal.list [PyVal.int 2])] ∧
    has (delete (PyVal.dict [("a", PyVal.list [PyVal.int 1, PyVal.int 2])]) "a.0")
      "a.0" = true := by
  refine ⟨rfl, rfl, rfl⟩

end NP

